import Mathlib

/-!
Verification of the `arborist` indexing pipeline.

Shallow embedding of the Rust sources (`src/arborist/src/*.rs`) into Lean:
pure functions become Lean functions, the external services (vector store,
language model, embedding models) become explicit oracles threaded through
the definitions, and fallible calls return `Except`.  Strings are handled at
the `List Char` level where character-wise computation is needed.  Names
follow the source.
-/

set_option maxHeartbeats 1000000

namespace Arborist

/-! ### File categories — `file_management.rs`

`FileType` and `FileType::from_path` (file_management.rs:64-89).  The Rust
code takes `Path::new(path).extension()`, lowercases it, and matches it
against a closed table of extension literals.  We first embed the relevant
part of Rust's `Path::extension` semantics on `/`-separated path strings.
-/

inductive FileType where
  | Document
  | Image
  | Audio
  | Video
  | Archive
  | Other
deriving DecidableEq, Repr

/-- Split a character list at every occurrence of the separator, keeping
empty segments (the semantics of Rust/Lean `splitOn` for a one-character
separator). -/
def splitOnChar (sep : Char) : List Char → List (List Char)
  | [] => [[]]
  | c :: rest =>
    let r := splitOnChar sep rest
    if c = sep then [] :: r
    else
      match r with
      | [] => [[c]]
      | h :: t => (c :: h) :: t

/-- Rust `Path::file_name`: the last normal component of the path.
Empty components and `.` components are skipped; a final `..` component
yields `none`. -/
def fileNameOf (path : String) : Option (List Char) :=
  let comps := (splitOnChar '/' path.data).filter (fun s => s ≠ [] && s ≠ ['.'])
  match comps.getLast? with
  | none => none
  | some s => if s = ['.', '.'] then none else some s

/-- Rust `Path::extension`: the part of the file name after its rightmost
`.`, provided that dot is not the first character (hidden files like
`.bashrc` have no extension); `none` when there is no dot or no file name. -/
def extensionOf (path : String) : Option (List Char) :=
  match fileNameOf path with
  | none => none
  | some name =>
    let parts := splitOnChar '.' name
    if parts.length < 2 then none
    else if parts.length = 2 && parts.head? = some [] then none
    else parts.getLast?

/-- The `Document` arm of the match in `FileType::from_path`
(file_management.rs:72-75), in source order (the four mixed-case literals
are in the source even though the scrutinee is lowercased first). -/
def documentExts : List (List Char) :=
  ["epub".data, "pdf".data, "txt".data, "docx".data, "md".data, "epage".data,
   "rtf".data, "fb2".data, "azw3".data, "mobi".data, "doc".data, "xlsx".data,
   "csv".data, "tex".data, "bib".data, "json".data, "xml".data, "html".data,
   "conf".data, "settings".data, "prop".data, "log".data, "djvu".data,
   "cls".data, "pkt".data, "sav".data, "set".data, "bin".data, "backup".data,
   "bundle".data, "typ".data, "scpt".data, "ePub".data, "PDF".data,
   "DOCX".data, "XLSX".data]

/-- The `Image` arm (file_management.rs:78-79). -/
def imageExts : List (List Char) :=
  ["jpg".data, "png".data, "jpeg".data, "gif".data, "bmp".data, "tiff".data,
   "webp".data, "svg".data, "heic".data, "avif".data, "pgm".data, "opf".data,
   "icon".data]

/-- The `Audio` arm (file_management.rs:80). -/
def audioExts : List (List Char) :=
  ["mp3".data, "wav".data, "m4b".data, "ogg".data, "flac".data, "aac".data,
   "wma".data, "amr".data]

/-- The `Video` arm (file_management.rs:81-82). -/
def videoExts : List (List Char) :=
  ["mp4".data, "mkv".data, "webm".data, "avi".data, "mov".data, "wmv".data,
   "flv".data, "mpeg".data, "3gp".data, "m4v".data]

/-- The `Archive` arm (file_management.rs:84-85). -/
def archiveExts : List (List Char) :=
  ["zip".data, "tar".data, "rar".data, "7z".data, "gz".data, "bz2".data,
   "iso".data, "dmg".data, "cab".data, "jar".data, "war".data, "ear".data,
   "pkg".data, "deb".data, "rpm".data, "apk".data, "cpio".data]

/-- The closed extension match of `FileType::from_path`, with the arms in
source order and the catch-all `_ => FileType::Other`. -/
def extCategory (e : List Char) : FileType :=
  if e ∈ documentExts then .Document
  else if e ∈ imageExts then .Image
  else if e ∈ audioExts then .Audio
  else if e ∈ videoExts then .Video
  else if e ∈ archiveExts then .Archive
  else .Other

/-- Rust `str::to_lowercase` restricted to the ASCII table entries. -/
def lowercase (e : List Char) : List Char :=
  e.map Char.toLower

/-- `FileType::from_path` (file_management.rs:64-89): lowercase the
extension of the path and match it against the closed table; a path with no
extension is `Other`. -/
def FileType.fromPath (path : String) : FileType :=
  match extensionOf path with
  | none => .Other
  | some ext => extCategory (lowercase ext)

/-- Every extension literal appearing in any arm of the match. -/
def allMappedExts : List (List Char) :=
  documentExts ++ imageExts ++ audioExts ++ videoExts ++ archiveExts

lemma extCategory_eq_other_of_not_mem {e : List Char} (h : e ∉ allMappedExts) :
    extCategory e = .Other := by
  simp only [allMappedExts, List.mem_append, not_or] at h
  obtain ⟨⟨⟨⟨h1, h2⟩, h3⟩, h4⟩, h5⟩ := h
  simp [extCategory, h1, h2, h3, h4, h5]

/-! ### File and folder records — `file_management.rs`

`FileMetadata` (file_management.rs:16-27) together with the mutable
`summary` field that `database.rs` and the spec's FileRecord rely on
(`main.rs` assigns `file.summary`), and `FolderMetadata`
(file_management.rs:29-43).  Timestamps are seconds as `Nat`.
-/

structure FileMetadata where
  name : String
  path : String
  size : Nat
  filetype : FileType
  created_at : Nat
  modified_at : Nat
  summary : String
deriving DecidableEq, Repr

structure FolderMetadata where
  name : String
  path : String
  size : Nat
  created_at : Nat
  modified_at : Nat
  file_count : Nat
  files : List FileMetadata
  folder_count : Nat
  summary : String
deriving DecidableEq, Repr

/-! ### Summaries — `summary.rs`

`generate_file_summary` (summary.rs:18-38).  The external calls (document
extraction, the Ollama generation endpoint, the image captioning path) are
oracles in `LlmEnv`; the function returns the summary outcome together with
the trace of external operations it invoked, in order.
-/

inductive SummOp where
  | readDocument (path : String)
  | imageSummary (path : String)
  | transcribeAudio (path : String)
  | transcribeVideo (path : String)
  | summarizeArchive (path : String)
  | generate (model : String) (prompt : String) (system : String)
deriving DecidableEq, Repr

structure LlmEnv where
  /-- outcome of `read_document` (summary.rs:166-209). -/
  readDocumentResult : String → Except String String
  /-- response of `ollama.generate` for (model, prompt, system). -/
  generateResult : String → String → String → Except String String
  /-- outcome of `generate_image_summary` (summary.rs:211-234). -/
  imageGenerateResult : String → Except String String

/-- The `FileType::Other` arm of the content match (summary.rs:26). -/
def sentinelOther : String := "Summary not available for this file type."

/-- The fixed system instruction (summary.rs:30). -/
def summarySystemMsg : String :=
  "You are a helpful assistant who summarizes file contents."

/-- `generate_file_summary` (summary.rs:18-38): dispatch on the file's
category to obtain `content` (Image returns early through the captioning
path), then send the fixed prompt template around `content` to the
generation service and return its response. -/
def generate_file_summary (env : LlmEnv) (model : String) (file : FileMetadata) :
    List SummOp × Except String String :=
  let finish := fun (ops : List SummOp) (content : Except String String) =>
    match content with
    | .error e => (ops, Except.error e)
    | .ok content =>
      let prompt := "Summarize the contents of file: " ++ content
      (ops ++ [.generate model prompt summarySystemMsg],
       env.generateResult model prompt summarySystemMsg)
  match file.filetype with
  | .Document => finish [.readDocument file.path] (env.readDocumentResult file.path)
  | .Image => ([.imageSummary file.path], env.imageGenerateResult file.path)
  | .Audio => finish [.transcribeAudio file.path]
      (.ok ("Audio transcription for: " ++ file.path))
  | .Video => finish [.transcribeVideo file.path]
      (.ok ("Video transcription for: " ++ file.path))
  | .Archive => finish [.summarizeArchive file.path]
      (.ok ("Archive summary for: " ++ file.path))
  | .Other => finish [] (.ok sentinelOther)


/-! ### Folder aggregation — `utils.rs`

`calculate_folder_size` (utils.rs:16-26), `count_files_in_folder`
(utils.rs:29-35) and `count_folders_in_folder` (utils.rs:38-44) each run a
fresh recursive `WalkDir` over the folder.  We model the filesystem subtree
rooted at a folder as a tree and `WalkDir` as its preorder enumeration
(the walker yields the root itself first, then every descendant).
-/

inductive FsTree where
  | file (name : String) (size : Nat)
  | dir (name : String) (children : List FsTree)

mutual

/-- `WalkDir::new(path)`: the root entry followed by every descendant
entry, depth first. -/
def walkDir : FsTree → List FsTree
  | .file n s => [.file n s]
  | .dir n cs => .dir n cs :: walkDirList cs

def walkDirList : List FsTree → List FsTree
  | [] => []
  | t :: ts => walkDir t ++ walkDirList ts

end

def FsTree.isFile : FsTree → Bool
  | .file _ _ => true
  | .dir _ _ => false

def FsTree.isDir : FsTree → Bool
  | .file _ _ => false
  | .dir _ _ => true

def FsTree.fileSize : FsTree → Nat
  | .file _ s => s
  | .dir _ _ => 0

/-- `calculate_folder_size` (utils.rs:16-26): walk the folder and sum the
sizes of the file entries. -/
def calculate_folder_size (t : FsTree) : Nat :=
  ((walkDir t).filter FsTree.isFile).foldl (fun acc e => acc + e.fileSize) 0

/-- `count_files_in_folder` (utils.rs:29-35): walk the folder and count the
file entries. -/
def count_files_in_folder (t : FsTree) : Nat :=
  ((walkDir t).filter FsTree.isFile).length

/-- `count_folders_in_folder` (utils.rs:38-44): walk the folder and count
the directory entries (the walker yields the root folder itself, so it is
counted too). -/
def count_folders_in_folder (t : FsTree) : Nat :=
  ((walkDir t).filter FsTree.isDir).length

def FsTree.name : FsTree → String
  | .file n _ => n
  | .dir n _ => n

/-- The `FolderMetadata` record pushed for a directory entry by
`DirScanConfig::scan_dir` (utils.rs:104-122): `size` from
`calculate_folder_size`, `file_count` from `count_files_in_folder`,
`folder_count` from `count_folders_in_folder`; timestamps from the stat
call, `files` a snapshot of the file records accumulated so far, `summary`
left empty. -/
def folderMetadataFor (t : FsTree) (createdTs modified : Nat)
    (accumulatedFiles : List FileMetadata) : FolderMetadata :=
  { name := t.name
    path := t.name
    size := calculate_folder_size t
    created_at := createdTs
    modified_at := modified
    file_count := count_files_in_folder t
    files := accumulatedFiles
    folder_count := count_folders_in_folder t
    summary := "" }

/-! Reference functions for the spec's reading of the aggregates: the
recursive total size of a tree, the number of a directory's *direct* child
files/subfolders, and the recursive number of descendant files. -/

mutual

/-- Sum of the sizes of all descendant files, recursively. -/
def totalSize : FsTree → Nat
  | .file _ s => s
  | .dir _ cs => totalSizeList cs

def totalSizeList : List FsTree → Nat
  | [] => 0
  | t :: ts => totalSize t + totalSizeList ts

end

/-- Number of direct child files of a directory node. -/
def directFileCount : FsTree → Nat
  | .file _ _ => 0
  | .dir _ cs => (cs.filter FsTree.isFile).length

/-- Number of direct child subfolders of a directory node. -/
def directFolderCount : FsTree → Nat
  | .file _ _ => 0
  | .dir _ cs => (cs.filter FsTree.isDir).length


mutual

/-- Recursive number of descendant file entries of a node (a file counts
itself). -/
def fileCountRec : FsTree → Nat
  | .file _ _ => 1
  | .dir _ cs => fileCountRecList cs

def fileCountRecList : List FsTree → Nat
  | [] => 0
  | t :: ts => fileCountRec t + fileCountRecList ts

end

mutual

/-- Recursive number of directory entries in the subtree of a node,
counting the node itself when it is a directory. -/
def dirCountRec : FsTree → Nat
  | .file _ _ => 0
  | .dir _ cs => 1 + dirCountRecList cs

def dirCountRecList : List FsTree → Nat
  | [] => 0
  | t :: ts => dirCountRec t + dirCountRecList ts

end

lemma foldl_add_fileSize (l : List FsTree) (acc : Nat) :
    l.foldl (fun a e => a + e.fileSize) acc = acc + (l.map FsTree.fileSize).sum := by
  induction l generalizing acc with
  | nil => simp
  | cons t ts ih => simp [List.foldl, ih]; omega

lemma sum_fileSize_filter (l : List FsTree) :
    ((l.filter FsTree.isFile).map FsTree.fileSize).sum = (l.map FsTree.fileSize).sum := by
  induction l with
  | nil => simp
  | cons t ts ih => cases t <;> simp [FsTree.isFile, FsTree.fileSize, ih]

mutual

theorem walkDir_sum_fileSize (t : FsTree) :
    ((walkDir t).map FsTree.fileSize).sum = totalSize t := by
  cases t with
  | file n s => simp [walkDir, totalSize, FsTree.fileSize]
  | dir n cs => simp [walkDir, totalSize, FsTree.fileSize, walkDirList_sum_fileSize cs]

theorem walkDirList_sum_fileSize (ts : List FsTree) :
    ((walkDirList ts).map FsTree.fileSize).sum = totalSizeList ts := by
  cases ts with
  | nil => simp [walkDirList, totalSizeList]
  | cons t ts =>
    simp [walkDirList, totalSizeList, walkDir_sum_fileSize t, walkDirList_sum_fileSize ts]

end

lemma calculate_folder_size_eq_totalSize (t : FsTree) :
    calculate_folder_size t = totalSize t := by
  rw [calculate_folder_size, foldl_add_fileSize, Nat.zero_add,
    sum_fileSize_filter, walkDir_sum_fileSize]

mutual

theorem walkDir_count_files (t : FsTree) :
    ((walkDir t).filter FsTree.isFile).length = fileCountRec t := by
  cases t with
  | file n s => simp [walkDir, fileCountRec, FsTree.isFile]
  | dir n cs => simp [walkDir, fileCountRec, FsTree.isFile, walkDirList_count_files cs]

theorem walkDirList_count_files (ts : List FsTree) :
    ((walkDirList ts).filter FsTree.isFile).length = fileCountRecList ts := by
  cases ts with
  | nil => simp [walkDirList, fileCountRecList]
  | cons t ts =>
    simp [walkDirList, fileCountRecList, walkDir_count_files t, walkDirList_count_files ts]

end

mutual

theorem walkDir_count_dirs (t : FsTree) :
    ((walkDir t).filter FsTree.isDir).length = dirCountRec t := by
  cases t with
  | file n s => simp [walkDir, dirCountRec, FsTree.isDir]
  | dir n cs =>
    simp [walkDir, dirCountRec, FsTree.isDir, walkDirList_count_dirs cs]
    omega

theorem walkDirList_count_dirs (ts : List FsTree) :
    ((walkDirList ts).filter FsTree.isDir).length = dirCountRecList ts := by
  cases ts with
  | nil => simp [walkDirList, dirCountRecList]
  | cons t ts =>
    simp [walkDirList, dirCountRecList, walkDir_count_dirs t, walkDirList_count_dirs ts]

end

/-- The concrete directory used to refute C7's direct-count reading: a
folder `A` containing a single subfolder `B` which contains one file. -/
def treeC7 : FsTree := .dir "A" [.dir "B" [.file "f" 1]]

/-- C7: the claim says the `FolderMetadata` for a directory has
`file_count` = number of *direct* child files and `folder_count` = number
of *direct* child subfolders.  On folder `A` (one direct subfolder, no
direct files) the code records `file_count = 1` (the file nested inside
`B`) and `folder_count = 2` (the walker counts `A` itself and `B`), so
both equalities fail. -/
theorem folder_counts_counterexample :
    (folderMetadataFor treeC7 0 0 []).file_count = 1
  ∧ directFileCount treeC7 = 0
  ∧ (folderMetadataFor treeC7 0 0 []).folder_count = 2
  ∧ directFolderCount treeC7 = 1 := by
  decide

/-- C7 (amended): for every directory node recorded during a scan, the
`FolderMetadata` pushed for it has `size` equal to the recursive sum of the
sizes of all descendant files, `file_count` equal to the number of all
descendant files (recursively, not only direct children), and
`folder_count` equal to the number of directory entries in its walked
subtree — the directory itself plus all descendant subfolders, recursively. -/
theorem folder_aggregates_recursive (t : FsTree) (c m : Nat) (acc : List FileMetadata) :
    (folderMetadataFor t c m acc).size = totalSize t
  ∧ (folderMetadataFor t c m acc).file_count = fileCountRec t
  ∧ (folderMetadataFor t c m acc).folder_count = dirCountRec t := by
  refine ⟨?_, ?_, ?_⟩
  · exact calculate_folder_size_eq_totalSize t
  · exact walkDir_count_files t
  · exact walkDir_count_dirs t


/-- C4: `FileType::from_path` is total — for every path, including one with
no extension, it returns exactly one of the six categories and never
errors; the result depends only on the path's extension compared
case-insensitively; a path with no extension maps to `Other`; and an
extension outside the closed mapping table maps to `Other`. -/
theorem fromPath_total_caseInsensitive_closed (p : String) :
    (FileType.fromPath p = .Document ∨ FileType.fromPath p = .Image ∨
     FileType.fromPath p = .Audio ∨ FileType.fromPath p = .Video ∨
     FileType.fromPath p = .Archive ∨ FileType.fromPath p = .Other)
  ∧ (∀ q : String, (extensionOf p).map lowercase = (extensionOf q).map lowercase →
      FileType.fromPath p = FileType.fromPath q)
  ∧ (extensionOf p = none → FileType.fromPath p = .Other)
  ∧ (∀ e, extensionOf p = some e → lowercase e ∉ allMappedExts →
      FileType.fromPath p = .Other) := by
  refine ⟨?_, ?_, ?_, ?_⟩
  · cases h : FileType.fromPath p <;> simp [h]
  · intro q hq
    unfold FileType.fromPath
    cases hp : extensionOf p <;> cases hq' : extensionOf q <;> simp_all
  · intro h
    simp [FileType.fromPath, h]
  · intro e he hne
    simp [FileType.fromPath, he, extCategory_eq_other_of_not_mem hne]

/-- Concrete instances of C4: a mixed-case `.PDF` path classifies like its
lowercase counterpart, an extensionless path is `Other`, and the
unrecognized extension `xyz` is `Other`. -/
theorem fromPath_witness :
    FileType.fromPath "a/b/report.PDF" = FileType.fromPath "c/report.pdf"
  ∧ FileType.fromPath "noext" = .Other
  ∧ FileType.fromPath "x/data.xyz" = .Other :=
  ⟨(fromPath_total_caseInsensitive_closed "a/b/report.PDF").2.1 "c/report.pdf" (by decide),
   (fromPath_total_caseInsensitive_closed "noext").2.2.1 (by decide),
   (fromPath_total_caseInsensitive_closed "x/data.xyz").2.2.2 "xyz".data
     (by decide) (by decide)⟩


/-- A language-model environment whose generation endpoint answers every
request with the fixed text `"LLM RESPONSE"`. -/
def envC5 : LlmEnv :=
  { readDocumentResult := fun _ => .error "unused"
    generateResult := fun _ _ _ => .ok "LLM RESPONSE"
    imageGenerateResult := fun _ => .error "unused" }

/-- A concrete file with an unrecognized extension, category `Other`. -/
def fileC5 : FileMetadata :=
  { name := "data.xyz", path := "x/data.xyz", size := 4, filetype := .Other,
    created_at := 0, modified_at := 0, summary := "" }

/-- C5: the claim says the summary produced for an `Other` file is the
fixed sentinel text and that no further generation is invoked for it.  On
a concrete `Other` file, `generate_file_summary` invokes the generation
service (with the sentinel embedded in the prompt) and returns the
service's response, which is not the sentinel. -/
theorem other_summary_counterexample :
    (generate_file_summary envC5 "gemma2:2b" fileC5).2 = .ok "LLM RESPONSE"
  ∧ "LLM RESPONSE" ≠ sentinelOther
  ∧ SummOp.generate "gemma2:2b" ("Summarize the contents of file: " ++ sentinelOther)
      summarySystemMsg ∈ (generate_file_summary envC5 "gemma2:2b" fileC5).1 :=
  ⟨rfl, by decide, by decide⟩

/-- C5 (amended): for every file whose category is `Other`, the extraction
content is the fixed sentinel `"Summary not available for this file
type."` and no extraction machinery (document reading, conversion,
transcription, captioning) is invoked — but the generic generation call IS
made, with the sentinel embedded in the fixed prompt template, and the
service's response is returned as the summary. -/
theorem other_summary_generation (env : LlmEnv) (model : String) (file : FileMetadata)
    (h : file.filetype = .Other) :
    generate_file_summary env model file =
      ([.generate model ("Summarize the contents of file: " ++ sentinelOther) summarySystemMsg],
       env.generateResult model ("Summarize the contents of file: " ++ sentinelOther)
         summarySystemMsg) := by
  simp [generate_file_summary, h]

/-- Concrete instance of the amended C5 on `fileC5`. -/
theorem other_summary_generation_witness :
    fileC5.filetype = .Other ∧
    generate_file_summary envC5 "m" fileC5 =
      ([.generate "m" ("Summarize the contents of file: " ++ sentinelOther) summarySystemMsg],
       Except.ok "LLM RESPONSE") :=
  ⟨rfl, (other_summary_generation envC5 "m" fileC5 rfl).trans rfl⟩


/-! ### Directory scan — `utils.rs`

`DirScanConfig::scan_dir` (utils.rs:80-171).  The walker (`WalkDir` with
its depth bound and the hidden/skip pruning filter) is modelled by the list
of items it yields: each item is either a successfully read entry or a
walker error.  The filesystem stat calls are oracles in `ScanEnv`.  The
final descending sort of the extension histogram and the elapsed-time field
are omitted (no claim refers to them).
-/

inductive EntryKind where
  | fileEntry
  | dirEntry
deriving DecidableEq, Repr

structure WEntry where
  path : String
  name : String
  kind : EntryKind
deriving DecidableEq, Repr

inductive WalkItem where
  | ok (e : WEntry)
  | err (msg : String)
deriving DecidableEq, Repr

structure ScanEnv where
  /-- `metadata(path).len()` -/
  statSize : String → Except String Nat
  /-- `metadata(path).created()` -/
  statCreated : String → Except String Nat
  /-- `metadata(path).modified()` -/
  statModified : String → Except String Nat
  /-- `calculate_folder_size(path)` as an oracle on the live filesystem -/
  folderSizeOf : String → Except String Nat
  /-- `count_files_in_folder(path)` (infallible: walker errors are dropped) -/
  countFilesOf : String → Nat
  /-- `count_folders_in_folder(path)` (infallible) -/
  countFoldersOf : String → Nat

/-- `DirScanResult` (utils.rs:174-184) without the elapsed-time field, plus
the stream of walker-error messages printed at utils.rs:150. -/
structure DirScanResult where
  file_count : Nat
  folder_count : Nat
  extension_count : List (List Char × Nat)
  file_list : List String
  folder_list : List String
  file_metadata_list : List FileMetadata
  folder_metadata_list : List FolderMetadata
  errors : List String
deriving Repr

/-- `*extension_map.entry(ext).or_insert(0) += 1` on an association list. -/
def updateCount (k : List Char) : List (List Char × Nat) → List (List Char × Nat)
  | [] => [(k, 1)]
  | (k', n) :: rest =>
    if k' = k then (k', n + 1) :: rest else (k', n) :: updateCount k rest

/-- The body of the `Ok(entry)` arm of the walk loop (utils.rs:99-149):
collect directory or file metadata; every stat failure propagates through
`?` and aborts the whole scan. -/
def scanStep (env : ScanEnv) (acc : DirScanResult) (e : WEntry) :
    Except String DirScanResult :=
  match e.kind with
  | .dirEntry =>
    match env.statSize e.path with
    | .error msg => .error msg
    | .ok _ =>
      match env.folderSizeOf e.path with
      | .error msg => .error msg
      | .ok folderSize =>
        match env.statCreated e.path with
        | .error msg => .error msg
        | .ok createdAt =>
          match env.statModified e.path with
          | .error msg => .error msg
          | .ok modifiedAt =>
            .ok { acc with
              folder_count := acc.folder_count + 1
              folder_list := acc.folder_list ++ [e.path]
              folder_metadata_list := acc.folder_metadata_list ++
                [{ name := e.name, path := e.path, size := folderSize
                   created_at := createdAt, modified_at := modifiedAt
                   file_count := env.countFilesOf e.path
                   files := acc.file_metadata_list
                   folder_count := env.countFoldersOf e.path
                   summary := "" }] }
  | .fileEntry =>
    match env.statSize e.path with
    | .error msg => .error msg
    | .ok fileSize =>
      match env.statCreated e.path with
      | .error msg => .error msg
      | .ok createdAt =>
        match env.statModified e.path with
        | .error msg => .error msg
        | .ok modifiedAt =>
          .ok { acc with
            file_count := acc.file_count + 1
            file_list := acc.file_list ++ [e.path]
            extension_count :=
              match extensionOf e.path with
              | some ext => updateCount ext acc.extension_count
              | none => acc.extension_count
            file_metadata_list := acc.file_metadata_list ++
              [{ name := e.name, path := e.path, size := fileSize
                 filetype := FileType.fromPath e.path
                 created_at := createdAt, modified_at := modifiedAt
                 summary := "" }] }

/-- The walk loop (utils.rs:91-152): `Err` items are logged and skipped,
`Ok` items go through `scanStep` (whose failures abort). -/
def scanLoop (env : ScanEnv) (acc : DirScanResult) :
    List WalkItem → Except String DirScanResult
  | [] => .ok acc
  | .err msg :: rest => scanLoop env { acc with errors := acc.errors ++ [msg] } rest
  | .ok e :: rest =>
    match scanStep env acc e with
    | .error msg => .error msg
    | .ok acc' => scanLoop env acc' rest

def emptyScan : DirScanResult :=
  { file_count := 0, folder_count := 0, extension_count := []
    file_list := [], folder_list := [], file_metadata_list := []
    folder_metadata_list := [], errors := [] }

/-- `DirScanConfig::scan_dir` (utils.rs:80-171) over the walker's items. -/
def scan_dir (env : ScanEnv) (items : List WalkItem) : Except String DirScanResult :=
  scanLoop env emptyScan items

/-- The entries the walker yields successfully, in order. -/
def okEntries : List WalkItem → List WEntry
  | [] => []
  | .ok e :: rest => e :: okEntries rest
  | .err _ :: rest => okEntries rest

/-- The walker-error messages, in order. -/
def errMsgs : List WalkItem → List String
  | [] => []
  | .ok _ :: rest => errMsgs rest
  | .err m :: rest => m :: errMsgs rest

def filePathsOf (items : List WalkItem) : List String :=
  (okEntries items).filterMap fun e =>
    match e.kind with
    | .fileEntry => some e.path
    | .dirEntry => none

def folderPathsOf (items : List WalkItem) : List String :=
  (okEntries items).filterMap fun e =>
    match e.kind with
    | .dirEntry => some e.path
    | .fileEntry => none



/-- A scan environment in which every stat succeeds except on the path
`"d/gone.txt"`, whose file was deleted between the walker yielding it and
the metadata call. -/
def envC3 : ScanEnv :=
  { statSize := fun p => if p = "d/gone.txt" then .error "No such file or directory" else .ok 1
    statCreated := fun _ => .ok 0
    statModified := fun _ => .ok 0
    folderSizeOf := fun _ => .ok 0
    countFilesOf := fun _ => 0
    countFoldersOf := fun _ => 0 }

/-- Walker items: the racing file is yielded successfully, then another
healthy file follows. -/
def itemsC3 : List WalkItem :=
  [.ok { path := "d/gone.txt", name := "gone.txt", kind := .fileEntry },
   .ok { path := "d/ok.txt", name := "ok.txt", kind := .fileEntry }]

/-- C3: the claim says an error on an individual traversed entry (for
example a race with deletion) is logged, the entry skipped, and the scan
still completes covering the remaining entries.  When an entry is yielded
successfully by the walker but its metadata stat then fails (the file was
deleted in between), `scan_dir` propagates the error through `?` and
aborts: it returns no scan result at all, and the healthy entry
`"d/ok.txt"` is never covered. -/
theorem scan_metadata_failure_aborts_counterexample :
    scan_dir envC3 itemsC3 = .error "No such file or directory"
  ∧ ∀ r : DirScanResult, scan_dir envC3 itemsC3 ≠ .ok r := by
  have habort : scan_dir envC3 itemsC3 = .error "No such file or directory" := rfl
  exact ⟨habort, fun r h => Except.noConfusion (habort.symm.trans h)⟩

/-- The success hypothesis for the amended C3: every stat the loop performs
on a successfully yielded entry succeeds. -/
def statsOk (env : ScanEnv) (items : List WalkItem) : Prop :=
  ∀ e ∈ okEntries items,
    (∃ n, env.statSize e.path = .ok n)
  ∧ (∃ n, env.statCreated e.path = .ok n)
  ∧ (∃ n, env.statModified e.path = .ok n)
  ∧ (e.kind = .dirEntry → ∃ n, env.folderSizeOf e.path = .ok n)

lemma scanLoop_ok (env : ScanEnv) (items : List WalkItem) :
    ∀ acc : DirScanResult, statsOk env items →
    ∃ r, scanLoop env acc items = .ok r
      ∧ r.file_list = acc.file_list ++ filePathsOf items
      ∧ r.folder_list = acc.folder_list ++ folderPathsOf items
      ∧ r.errors = acc.errors ++ errMsgs items := by
  induction items with
  | nil =>
    intro acc _
    exact ⟨acc, rfl, by simp [filePathsOf, okEntries], by simp [folderPathsOf, okEntries],
      by simp [errMsgs]⟩
  | cons item rest ih =>
    intro acc hok
    cases item with
    | err msg =>
      have hok' : statsOk env rest := fun e he => hok e (by simp [okEntries, he])
      obtain ⟨r, hr, hf, hd, he⟩ := ih { acc with errors := acc.errors ++ [msg] } hok'
      refine ⟨r, ?_, ?_, ?_, ?_⟩
      · simpa [scanLoop] using hr
      · simpa [filePathsOf, okEntries] using hf
      · simpa [folderPathsOf, okEntries] using hd
      · rw [he]; simp [errMsgs]
    | ok e =>
      obtain ⟨⟨n1, h1⟩, ⟨n2, h2⟩, ⟨n3, h3⟩, h4⟩ := hok e (by simp [okEntries])
      have hok' : statsOk env rest := fun e' he' => hok e' (by simp [okEntries, he'])
      cases hk : e.kind with
      | fileEntry =>
        have hstep : scanStep env acc e = .ok { acc with
            file_count := acc.file_count + 1
            file_list := acc.file_list ++ [e.path]
            extension_count :=
              match extensionOf e.path with
              | some ext => updateCount ext acc.extension_count
              | none => acc.extension_count
            file_metadata_list := acc.file_metadata_list ++
              [{ name := e.name, path := e.path, size := n1
                 filetype := FileType.fromPath e.path
                 created_at := n2, modified_at := n3, summary := "" }] } := by
          simp [scanStep, hk, h1, h2, h3]
        obtain ⟨r, hr, hf, hd, he⟩ := ih _ hok'
        refine ⟨r, ?_, ?_, ?_, ?_⟩
        · simp only [scanLoop, hstep]
          exact hr
        · rw [hf]; simp [filePathsOf, okEntries, hk]
        · rw [hd]; simp [folderPathsOf, okEntries, hk]
        · rw [he]; simp [errMsgs]
      | dirEntry =>
        obtain ⟨n4, h4⟩ := h4 hk
        have hstep : scanStep env acc e = .ok { acc with
            folder_count := acc.folder_count + 1
            folder_list := acc.folder_list ++ [e.path]
            folder_metadata_list := acc.folder_metadata_list ++
              [{ name := e.name, path := e.path, size := n4
                 created_at := n2, modified_at := n3
                 file_count := env.countFilesOf e.path
                 files := acc.file_metadata_list
                 folder_count := env.countFoldersOf e.path
                 summary := "" }] } := by
          simp [scanStep, hk, h1, h2, h3, h4]
        obtain ⟨r, hr, hf, hd, he⟩ := ih _ hok'
        refine ⟨r, ?_, ?_, ?_, ?_⟩
        · simp only [scanLoop, hstep]
          exact hr
        · rw [hf]; simp [filePathsOf, okEntries, hk]
        · rw [hd]; simp [folderPathsOf, okEntries, hk]
        · rw [he]; simp [errMsgs]

/-- C3 (amended): errors yielded by the directory walker for individual
entries are logged and those entries skipped, and the scan still completes,
returning a scan result covering every successfully yielded entry —
provided the metadata stats of the successfully yielded entries themselves
succeed (a stat failure on a yielded entry instead aborts the whole scan,
see `scan_metadata_failure_aborts_counterexample`). -/
theorem scan_walker_errors_skipped (env : ScanEnv) (items : List WalkItem)
    (hok : statsOk env items) :
    ∃ r, scan_dir env items = .ok r
      ∧ r.file_list = filePathsOf items
      ∧ r.folder_list = folderPathsOf items
      ∧ r.errors = errMsgs items := by
  obtain ⟨r, hr, hf, hd, he⟩ := scanLoop_ok env items emptyScan hok
  exact ⟨r, hr, by simpa [emptyScan] using hf, by simpa [emptyScan] using hd,
    by simpa [emptyScan] using he⟩

/-- Concrete instance of the amended C3: a walker error between two healthy
files is logged while both files are still scanned. -/
theorem scan_walker_errors_skipped_witness :
    ∃ r, scan_dir envC3
        [.ok { path := "d/a.txt", name := "a.txt", kind := .fileEntry },
         .err "permission denied",
         .ok { path := "d/b.txt", name := "b.txt", kind := .fileEntry }] = .ok r
      ∧ r.file_list = ["d/a.txt", "d/b.txt"]
      ∧ r.folder_list = []
      ∧ r.errors = ["permission denied"] := by
  have h := scan_walker_errors_skipped envC3
    [.ok { path := "d/a.txt", name := "a.txt", kind := .fileEntry },
     .err "permission denied",
     .ok { path := "d/b.txt", name := "b.txt", kind := .fileEntry }]
    (by
      intro e he
      simp [okEntries] at he
      rcases he with he | he <;> subst he <;>
        exact ⟨⟨1, rfl⟩, ⟨0, rfl⟩, ⟨0, rfl⟩, fun hcontra => EntryKind.noConfusion hcontra⟩)
  simpa [filePathsOf, folderPathsOf, okEntries, errMsgs] using h

/-! ### Chunking — `database.rs` and the external text splitter

`chunk_string` (database.rs:51-69) delegates the actual splitting to the
external `text_splitter` crate (`TextSplitter::chunks` with a
tokenizer-based sizer), whose code is not part of this repository.
-/

lemma splitOnChar_eq_splitOn (sep : Char) : ∀ cs, splitOnChar sep cs = cs.splitOn sep := by
  intro cs
  induction cs with
  | nil => rfl
  | cons c cs ih =>
    simp only [splitOnChar, List.splitOn] at *
    rw [List.splitOnP_cons]
    by_cases h : c = sep
    · simp [h, ih]
    · rw [if_neg h, ih]
      rw [show (c == sep) = false from beq_eq_false_iff_ne.2 h, if_neg (by simp)]
      cases hsp : List.splitOnP (fun a => a == sep) cs with
      | nil => exact absurd hsp (List.splitOnP_ne_nil _ cs)
      | cons hh tt => simp [List.modifyHead]

/-- Modelled from the spec: the greedy token-window splitter of §4.3.  The
splitting algorithm lives in the external `text_splitter` crate and is not
in this repository's sources; following the spec, the splitter greedily
fills each chunk with tokens up to the window maximum and the final chunk
keeps whatever remains (allowed to be shorter than the minimum). -/
def chunkGreedy {α : Type} (maxTok : Nat) : List α → List (List α)
  | [] => []
  | t :: ts => (t :: ts.take (maxTok - 1)) :: chunkGreedy maxTok (ts.drop (maxTok - 1))
termination_by l => l.length
decreasing_by
  simp only [List.length_drop, List.length_cons]
  omega

/-- Modelled from the spec: `chunk_string` (database.rs:51-69) over an
input text, a tokenizer identifier and a token window.  The tokenizer of
§4.3 is modelled as whitespace word splitting (one token per word); the
chunks are returned as strings, words re-joined with single spaces. -/
def chunk_string (input : String) (tokenizerName : String) (minTok maxTok : Nat) :
    List String :=
  let _ := tokenizerName
  let _ := minTok
  (chunkGreedy maxTok (splitOnChar ' ' input.data)).map
    (fun ws => String.mk (List.intercalate [' '] ws))

lemma chunkGreedy_flatten {α : Type} (maxTok : Nat) (ts : List α) :
    (chunkGreedy maxTok ts).flatten = ts := by
  induction ts using chunkGreedy.induct maxTok with
  | case1 => simp [chunkGreedy]
  | case2 t ts ih =>
    rw [chunkGreedy]
    simp only [List.flatten_cons, ih]
    simp [List.take_append_drop]

lemma chunkGreedy_mem_bounds {α : Type} (maxTok : Nat) (hmax : 1 ≤ maxTok) (ts : List α) :
    ∀ b ∈ chunkGreedy maxTok ts, 1 ≤ b.length ∧ b.length ≤ maxTok := by
  induction ts using chunkGreedy.induct maxTok with
  | case1 => simp [chunkGreedy]
  | case2 t ts ih =>
    rw [chunkGreedy]
    intro b hb
    rcases List.mem_cons.1 hb with hb | hb
    · subst hb
      simp only [List.length_cons]
      have := List.length_take_le (maxTok - 1) ts
      constructor <;> omega
    · exact ih b hb

lemma chunkGreedy_ne_nil {α : Type} (maxTok : Nat) (t : α) (ts : List α) :
    chunkGreedy maxTok (t :: ts) ≠ [] := by
  rw [chunkGreedy]
  simp

lemma chunkGreedy_dropLast_length {α : Type} (maxTok : Nat) (hmax : 1 ≤ maxTok) (ts : List α) :
    ∀ b ∈ (chunkGreedy maxTok ts).dropLast, b.length = maxTok := by
  induction ts using chunkGreedy.induct maxTok with
  | case1 => simp [chunkGreedy]
  | case2 t ts ih =>
    rw [chunkGreedy]
    cases hrest : ts.drop (maxTok - 1) with
    | nil =>
      simp [chunkGreedy]
    | cons r rs =>
      rw [hrest] at ih
      intro b hb
      rw [List.dropLast_cons_of_ne_nil (chunkGreedy_ne_nil maxTok r rs)] at hb
      rcases List.mem_cons.1 hb with hb | hb
      · subst hb
        have hlen : maxTok - 1 ≤ ts.length := by
          by_contra hcon
          push_neg at hcon
          rw [List.drop_eq_nil_of_le (by omega)] at hrest
          exact List.noConfusion hrest
        simp only [List.length_cons, List.length_take]
        omega
      · exact ih b hb

/-- C8 (spec-modelled): for every input text and inclusive token window
`[minTok, maxTok]`, every chunk except possibly the last has a token count
within the window, every chunk (the last included) stays within the
maximum, and the chunks' token blocks concatenate back to exactly the
token sequence of the input — rejoining them with the separator
reconstructs the input text losslessly. -/
theorem chunker_bounds_lossless (input : String) (tokenizerName : String)
    (minTok maxTok : Nat) (hmin : 1 ≤ minTok) (hminmax : minTok ≤ maxTok) :
    (∀ b ∈ (chunkGreedy maxTok (splitOnChar ' ' input.data)).dropLast,
        minTok ≤ b.length ∧ b.length ≤ maxTok)
  ∧ (∀ b ∈ chunkGreedy maxTok (splitOnChar ' ' input.data),
        1 ≤ b.length ∧ b.length ≤ maxTok)
  ∧ (chunkGreedy maxTok (splitOnChar ' ' input.data)).flatten = splitOnChar ' ' input.data
  ∧ [' '].intercalate ((chunkGreedy maxTok (splitOnChar ' ' input.data)).flatten) = input.data
  ∧ chunk_string input tokenizerName minTok maxTok =
      (chunkGreedy maxTok (splitOnChar ' ' input.data)).map
        (fun ws => String.mk (List.intercalate [' '] ws)) := by
  have hmax : 1 ≤ maxTok := le_trans hmin hminmax
  refine ⟨?_, chunkGreedy_mem_bounds maxTok hmax _, chunkGreedy_flatten maxTok _, ?_, rfl⟩
  · intro b hb
    have := chunkGreedy_dropLast_length maxTok hmax _ b hb
    omega
  · rw [chunkGreedy_flatten maxTok _, splitOnChar_eq_splitOn]
    exact List.intercalate_splitOn input.data ' '

/-- Concrete instance of C8: window `[2, 3]` over a five-word text — both
non-final chunks hold three tokens, the final chunk holds two, and the
chunks re-join to the original text. -/
theorem chunker_bounds_lossless_witness :
    chunk_string "a b c d e" "bert-base-cased" 2 3 = ["a b c", "d e"]
  ∧ [' '].intercalate ((chunkGreedy 3 (splitOnChar ' ' ("a b c d e" : String).data)).flatten) =
      ("a b c d e" : String).data := by
  have h := chunker_bounds_lossless "a b c d e" "bert-base-cased" 2 3
    (by decide) (by decide)
  refine ⟨?_, h.2.2.2.1⟩
  rw [h.2.2.2.2]
  simp [splitOnChar, chunkGreedy, List.intercalate]

/-! ### Vector store collections — `database.rs`

`create_hybrid_collection` (database.rs:19-49).  The store's collection
state is the list of (name, schema) pairs; the function returns the new
state together with the creation calls it issued.
-/

inductive Distance where
  | Cosine
  | Euclid
  | Dot
deriving DecidableEq, Repr

structure VectorParams where
  size : Nat
  distance : Distance
deriving DecidableEq, Repr

structure CollectionConfig where
  denseSpaces : List (String × VectorParams)
  sparseSpaces : List String
deriving DecidableEq, Repr

inductive CollectionCall where
  | createCollection (name : String) (cfg : CollectionConfig)
deriving DecidableEq, Repr

/-- The schema built at database.rs:28-43: one named sparse vector space
`"splade"` and one named dense vector space `"novum"` of dimension 768
with cosine distance. -/
def hybridSchema : CollectionConfig :=
  { denseSpaces := [("novum", { size := 768, distance := .Cosine })]
    sparseSpaces := ["splade"] }

/-- `create_hybrid_collection` (database.rs:19-49): skip creation when a
collection of the name exists, otherwise create it with `hybridSchema`. -/
def create_hybrid_collection (collections : List (String × CollectionConfig))
    (collection_name : String) :
    List (String × CollectionConfig) × List CollectionCall :=
  if collections.any (fun c => c.1 = collection_name) then
    (collections, [])
  else
    (collections ++ [(collection_name, hybridSchema)],
     [.createCollection collection_name hybridSchema])

/-- C6: `create_hybrid_collection` is idempotent — when a collection of
the given name already exists it issues no creation call and leaves the
store unchanged (returning success), and otherwise it issues exactly one
creation call whose schema has exactly one named dense vector space of
dimension 768 with cosine distance and exactly one named sparse vector
space. -/
theorem create_hybrid_collection_idempotent
    (collections : List (String × CollectionConfig)) (collection_name : String) :
    ((∃ c ∈ collections, c.1 = collection_name) →
      create_hybrid_collection collections collection_name = (collections, []))
  ∧ ((¬ ∃ c ∈ collections, c.1 = collection_name) →
      create_hybrid_collection collections collection_name =
        (collections ++ [(collection_name, hybridSchema)],
         [.createCollection collection_name hybridSchema])
      ∧ hybridSchema.denseSpaces = [("novum", { size := 768, distance := .Cosine })]
      ∧ hybridSchema.sparseSpaces = ["splade"]) := by
  constructor
  · intro hex
    have : collections.any (fun c => c.1 = collection_name) = true := by
      obtain ⟨c, hc, hname⟩ := hex
      exact List.any_eq_true.2 ⟨c, hc, by simp [hname]⟩
    simp [create_hybrid_collection, this]
  · intro hnex
    have : collections.any (fun c => c.1 = collection_name) = false := by
      rw [List.any_eq_false]
      intro c hc
      simp only [decide_eq_true_eq]
      exact fun hname => hnex ⟨c, hc, hname⟩
    exact ⟨by simp [create_hybrid_collection, this], rfl, rfl⟩

/-- Concrete instances of C6: creating `"file_data"` twice in a row issues
one creation call the first time and none the second. -/
theorem create_hybrid_collection_idempotent_witness :
    create_hybrid_collection [] "file_data" =
      ([("file_data", hybridSchema)], [.createCollection "file_data" hybridSchema])
  ∧ create_hybrid_collection [("file_data", hybridSchema)] "file_data" =
      ([("file_data", hybridSchema)], []) :=
  ⟨by simpa using ((create_hybrid_collection_idempotent [] "file_data").2 (by simp)).1,
   (create_hybrid_collection_idempotent [("file_data", hybridSchema)] "file_data").1
     ⟨("file_data", hybridSchema), by simp⟩⟩

/-! ### Indexing pipeline — `database.rs`

`is_file_already_indexed` (database.rs:88-102), `get_or_generate_summary`
(database.rs:105-119), `generate_embeddings` (database.rs:72-85) and
`process_and_upload_files` (database.rs:122-201).  The store is the list
of points of the `"file_data"` collection; the embedding models, the
external text splitter and the network failure modes are oracles in
`DbEnv`.  The pipeline returns the trace of store operations and log
events together with the outcome (the new store contents on success).
-/

/-- `Config` (config.rs:5-22). -/
structure ScanConfig where
  max_tokens : Nat × Nat
  model_name : String
deriving DecidableEq, Repr

structure QueryConfig where
  top_k_results : Nat
deriving DecidableEq, Repr

structure Config where
  db_url : String
  collection_name : String
  scan : ScanConfig
  query : QueryConfig
deriving DecidableEq, Repr

/-- Dense embedding vectors; the numeric values never matter to the
claims, only which vector sits where. -/
abbrev DenseVec := List Int

/-- Sparse embedding vectors (index/weight pairs). -/
abbrev SparseVec := List (Nat × Int)

/-- `PointStruct` as assembled at database.rs:163-176: id, named-vector
map, and the four payload fields inserted at database.rs:164-168. -/
structure Point where
  id : String
  vectors : List (String × DenseVec)
  file_name : String
  file_path : String
  file_size : Int
  summary : String
deriving DecidableEq, Repr

structure DbEnv where
  /-- the language-model service (summary.rs oracles) -/
  llm : LlmEnv
  /-- when `some e`, the dedup query call for this path fails with `e` -/
  queryFails : String → Option String
  /-- the external splitter: `chunk_string(summary, "bert-base-cased", 20..40)` -/
  chunksOf : String → List String
  /-- dense embedding of one chunk (`model.embed`) -/
  denseEmbed : String → DenseVec
  /-- sparse embedding of a full text (`sparse_model.embed`) -/
  sparseEmbed : String → SparseVec
  /-- when `some e`, the embedding calls for this summary fail with `e` -/
  embedFails : String → Option String
  /-- `Uuid::new_v4()` for the n-th point of the run -/
  freshId : Nat → String
  /-- when `some e`, the final upsert call fails with `e` -/
  upsertFails : Option String

/-- Store operations and log lines of the indexing path, in order. -/
inductive DbOp where
  | queryCall (collection : String) (file_path : String)
  | skipExisting (file_path : String)
  | summaryFailure (file_name : String) (msg : String)
  | embedFailure (file_name : String) (msg : String)
  | noDenseEmbedding (file_name : String)
  | upsertCall (collection : String) (points : List Point)
  | noNewFiles
deriving DecidableEq, Repr

/-- `is_file_already_indexed` (database.rs:88-102): query the
`"file_data"` collection for a point whose payload `file_path` exactly
matches, limit 1; the result is whether any matched.  A failing call
surfaces as an error. -/
def is_file_already_indexed (env : DbEnv) (store : List Point) (file_path : String) :
    Except String Bool :=
  match env.queryFails file_path with
  | some e => .error e
  | none => .ok (store.any (fun pt => pt.file_path = file_path))

/-- `get_or_generate_summary` (database.rs:105-119): reuse a non-empty
summary unless regeneration is forced, otherwise generate one with the
configured model. -/
def get_or_generate_summary (llm : LlmEnv) (config : Config) (file : FileMetadata)
    (force_regenerate : Bool) : Except String String :=
  if force_regenerate = false ∧ file.summary ≠ "" then .ok file.summary
  else (generate_file_summary llm config.scan.model_name file).2

/-- `generate_embeddings` (database.rs:72-85): chunk the summary through
the external splitter and embed each chunk densely; embed the full summary
sparsely (the sparse model receives `[summary]`, so one sparse vector). -/
def generate_embeddings (env : DbEnv) (summary : String) :
    Except String (List DenseVec × List SparseVec) :=
  match env.embedFails summary with
  | some e => .error e
  | none =>
    let summary_chunks := env.chunksOf summary
    .ok (summary_chunks.map env.denseEmbed, [env.sparseEmbed summary])

/-- One run's event trace together with its outcome. -/
structure LoopOut where
  events : List DbOp
  result : Except String (List Point)
deriving Repr

/-- The per-file loop of `process_and_upload_files` (database.rs:137-181):
skip files already indexed, log and skip files whose summarization or
embedding fails, and collect one point (first dense chunk vector under the
`"novum"` space) per surviving file.  A dedup-check failure propagates via
`?` and ends the whole run. -/
def processLoop (env : DbEnv) (config : Config) (store : List Point)
    (force_regenerate : Bool) : List FileMetadata → Nat → LoopOut
  | [], _ => { events := [], result := .ok [] }
  | file :: rest, idx =>
    let queryEv := DbOp.queryCall "file_data" file.path
    match is_file_already_indexed env store file.path with
    | .error e => { events := [queryEv], result := .error e }
    | .ok true =>
      let out := processLoop env config store force_regenerate rest idx
      { events := queryEv :: .skipExisting file.path :: out.events
        result := out.result }
    | .ok false =>
      match get_or_generate_summary env.llm config file force_regenerate with
      | .error e =>
        let out := processLoop env config store force_regenerate rest idx
        { events := queryEv :: .summaryFailure file.name e :: out.events
          result := out.result }
      | .ok summary =>
        match generate_embeddings env summary with
        | .error e =>
          let out := processLoop env config store force_regenerate rest idx
          { events := queryEv :: .embedFailure file.name e :: out.events
            result := out.result }
        | .ok (dense_embeddings, _sparse_embeddings) =>
          match dense_embeddings.head? with
          | some dense_embedding =>
            let point : Point :=
              { id := env.freshId idx
                vectors := [("novum", dense_embedding)]
                file_name := file.name
                file_path := file.path
                file_size := (file.size : Int)
                summary := summary }
            let out := processLoop env config store force_regenerate rest (idx + 1)
            { events := queryEv :: out.events
              result :=
                match out.result with
                | .error e => .error e
                | .ok pts => .ok (point :: pts) }
          | none =>
            let out := processLoop env config store force_regenerate rest idx
            { events := queryEv :: .noDenseEmbedding file.name :: out.events
              result := out.result }

/-- `process_and_upload_files` (database.rs:122-201): default the force
flag, run the per-file loop, then upsert the collected points into
`"file_data"` in one batch (a batch with zero points is a no-op).  On
success the value is the new store contents. -/
def process_and_upload_files (env : DbEnv) (config : Config) (store : List Point)
    (file_metadata_list : List FileMetadata) (force_regenerate : Option Bool) :
    List DbOp × Except String (List Point) :=
  let force := force_regenerate.getD false
  let out := processLoop env config store force file_metadata_list 0
  match out.result with
  | .error e => (out.events, .error e)
  | .ok points =>
    if points = [] then (out.events ++ [.noNewFiles], .ok store)
    else
      match env.upsertFails with
      | some e => (out.events ++ [.upsertCall "file_data" points], .error e)
      | none => (out.events ++ [.upsertCall "file_data" points], .ok (store ++ points))

/-- The store contents after one call: unchanged when the run errored. -/
def runScan (env : DbEnv) (config : Config) (store : List Point)
    (files : List FileMetadata) (force : Option Bool) : List Point :=
  match (process_and_upload_files env config store files force).2 with
  | .ok s => s
  | .error _ => store

/-- The dedup invariant of §3: no two points of the store share a payload
`file_path` — equivalently, for every path there is at most one point. -/
def dedupInvariant (store : List Point) : Prop :=
  (store.map (fun pt => pt.file_path)).Nodup

lemma is_file_already_indexed_false {env : DbEnv} {store : List Point} {p : String}
    (h : is_file_already_indexed env store p = .ok false) :
    ∀ q ∈ store, q.file_path ≠ p := by
  unfold is_file_already_indexed at h
  cases hqf : env.queryFails p with
  | some e => rw [hqf] at h; exact Except.noConfusion h
  | none =>
    rw [hqf] at h
    have hany : store.any (fun pt => pt.file_path = p) = false := by
      cases hb : store.any (fun pt => pt.file_path = p) with
      | false => rfl
      | true => rw [hb] at h; simp at h
    rw [List.any_eq_false] at hany
    intro q hq
    have := hany q hq
    simpa using this

lemma processLoop_points_sound (env : DbEnv) (config : Config) (store : List Point)
    (force : Bool) :
    ∀ (files : List FileMetadata) (idx : Nat) (pts : List Point),
      (processLoop env config store force files idx).result = .ok pts →
      ((pts.map (fun pt => pt.file_path)).Sublist (files.map (fun f => f.path))
       ∧ ∀ pt ∈ pts, ∀ q ∈ store, q.file_path ≠ pt.file_path) := by
  intro files
  induction files with
  | nil =>
    intro idx pts h
    simp only [processLoop] at h
    obtain rfl : ([] : List Point) = pts := Except.ok.inj h
    simp
  | cons file rest ih =>
    intro idx pts h
    simp only [processLoop] at h
    cases hq : is_file_already_indexed env store file.path with
    | error e => rw [hq] at h; exact absurd h (by simp)
    | ok b =>
      cases b with
      | true =>
        rw [hq] at h
        simp only at h
        obtain ⟨hsub, hdisj⟩ := ih idx pts h
        exact ⟨hsub.cons _, hdisj⟩
      | false =>
        rw [hq] at h
        simp only at h
        cases hs : get_or_generate_summary env.llm config file force with
        | error e =>
          rw [hs] at h
          simp only at h
          obtain ⟨hsub, hdisj⟩ := ih idx pts h
          exact ⟨hsub.cons _, hdisj⟩
        | ok summary =>
          rw [hs] at h
          simp only at h
          cases he : generate_embeddings env summary with
          | error e =>
            rw [he] at h
            simp only at h
            obtain ⟨hsub, hdisj⟩ := ih idx pts h
            exact ⟨hsub.cons _, hdisj⟩
          | ok pair =>
            rw [he] at h
            obtain ⟨dense_embeddings, sparse_embeddings⟩ := pair
            simp only at h
            cases hd : dense_embeddings.head? with
            | none =>
              rw [hd] at h
              simp only at h
              obtain ⟨hsub, hdisj⟩ := ih idx pts h
              exact ⟨hsub.cons _, hdisj⟩
            | some dense_embedding =>
              rw [hd] at h
              simp only at h
              cases hrec : (processLoop env config store force rest (idx + 1)).result with
              | error e => rw [hrec] at h; exact absurd h (by simp)
              | ok pts2 =>
                rw [hrec] at h
                simp only at h
                obtain rfl := Except.ok.inj h
                obtain ⟨hsub, hdisj⟩ := ih (idx + 1) pts2 hrec
                refine ⟨?_, ?_⟩
                · simp only [List.map_cons]
                  exact hsub.cons₂ _
                · intro pt hpt q hqs
                  rcases List.mem_cons.1 hpt with rfl | hpt
                  · exact is_file_already_indexed_false hq q hqs
                  · exact hdisj pt hpt q hqs

lemma process_result_invariant (env : DbEnv) (config : Config) (store : List Point)
    (files : List FileMetadata) (force : Option Bool) (s : List Point)
    (hstore : dedupInvariant store)
    (hfiles : (files.map (fun f => f.path)).Nodup)
    (h : (process_and_upload_files env config store files force).2 = .ok s) :
    dedupInvariant s := by
  simp only [process_and_upload_files] at h
  split at h
  · exact absurd h (by simp)
  · rename_i pts hout
    obtain ⟨hsub, hdisj⟩ := processLoop_points_sound env config store _ files 0 pts hout
    by_cases hnil : pts = []
    · rw [if_pos hnil] at h
      obtain rfl := Except.ok.inj h
      exact hstore
    · rw [if_neg hnil] at h
      split at h
      · exact absurd h (by simp)
      · obtain rfl := Except.ok.inj h
        rw [dedupInvariant, List.map_append, List.nodup_append]
        refine ⟨hstore, hfiles.sublist hsub, ?_⟩
        intro a ha hb
        rw [List.mem_map] at ha hb
        obtain ⟨q, hqs, rfl⟩ := ha
        obtain ⟨pt, hpt, heq⟩ := hb
        exact hdisj pt hpt q hqs heq.symm

/-- One scan run against the store: the oracle conditions it ran under,
its configuration, and the files the directory scan handed over. -/
structure ScanRun where
  env : DbEnv
  config : Config
  files : List FileMetadata
  force : Option Bool

/-- Fold a sequence of scan runs over the store. -/
def runScans (store : List Point) : List ScanRun → List Point
  | [] => store
  | r :: rs => runScans (runScan r.env r.config store r.files r.force) rs

lemma runScan_preserves (r : ScanRun) (store : List Point)
    (hstore : dedupInvariant store)
    (hfiles : (r.files.map (fun f => f.path)).Nodup) :
    dedupInvariant (runScan r.env r.config store r.files r.force) := by
  unfold runScan
  cases h : (process_and_upload_files r.env r.config store r.files r.force).2 with
  | error e => exact hstore
  | ok s =>
    exact process_result_invariant r.env r.config store r.files r.force s hstore hfiles h

/-- C1: for every sequence of scan runs against the same store — each run
scanning a directory, so its file list carries pairwise-distinct paths —
the store keeps at most one point per payload `file_path`: the per-file
dedup query skips (before any summarization or embedding) every file whose
path already has a point, so only files with fresh, pairwise-distinct
paths ever contribute points, and a failed run leaves the store
unchanged. -/
theorem processRuns_dedup_invariant (runs : List ScanRun) (store : List Point)
    (hstore : dedupInvariant store)
    (hruns : ∀ r ∈ runs, (r.files.map (fun f => f.path)).Nodup) :
    dedupInvariant (runScans store runs) := by
  induction runs generalizing store with
  | nil => exact hstore
  | cons r rs ih =>
    exact ih _ (runScan_preserves r store hstore (hruns r (List.mem_cons_self r rs)))
      (fun r2 hr2 => hruns r2 (List.mem_cons_of_mem r hr2))

/-- A language-model environment in which every call succeeds. -/
def llmEnvOk : LlmEnv :=
  { readDocumentResult := fun _ => .ok "doc text"
    generateResult := fun _ _ _ => .ok "a fine summary"
    imageGenerateResult := fun _ => .ok "an image" }

/-- A pipeline environment in which every external call succeeds. -/
def dbEnvOk : DbEnv :=
  { llm := llmEnvOk
    queryFails := fun _ => none
    chunksOf := fun s => [s]
    denseEmbed := fun _ => [1, 2]
    sparseEmbed := fun _ => [(0, 1)]
    embedFails := fun _ => none
    freshId := fun _ => "11111111-2222"
    upsertFails := none }

/-- The default configuration (config.rs:13-22, 30-37, 44-48). -/
def configDefault : Config :=
  { db_url := "http://localhost:6334"
    collection_name := "file_data"
    scan := { max_tokens := (20, 40), model_name := "gemma2:2b" }
    query := { top_k_results := 5 } }

def fileA : FileMetadata :=
  { name := "report.md", path := "/docs/report.md", size := 10
    filetype := .Document, created_at := 0, modified_at := 0, summary := "" }

def runA : ScanRun :=
  { env := dbEnvOk, config := configDefault, files := [fileA], force := none }

/-- Concrete instance of C1: running the same one-file scan twice against
an empty store keeps the dedup invariant, and the second run adds no point
— the store holds exactly one point. -/
theorem processRuns_dedup_invariant_witness :
    dedupInvariant (runScans [] [runA, runA])
  ∧ (runScans [] [runA, runA]).length = 1 :=
  ⟨processRuns_dedup_invariant [runA, runA] [] (by simp [dedupInvariant])
      (by intro r hr
          have hcase : r = runA := by
            rcases List.mem_cons.1 hr with h | h
            · exact h
            · simpa using h
          subst hcase
          simp [runA, fileA]),
   by decide⟩

def fileA2 : FileMetadata :=
  { name := "a.md", path := "/docs/a.md", size := 1
    filetype := .Document, created_at := 0, modified_at := 0, summary := "" }

def fileB2 : FileMetadata :=
  { name := "b.md", path := "/docs/b.md", size := 1
    filetype := .Document, created_at := 0, modified_at := 0, summary := "" }

/-- Like `dbEnvOk`, but the dedup query call fails for `"/docs/a.md"`. -/
def dbEnvC2 : DbEnv :=
  { dbEnvOk with
    queryFails := fun p => if p = "/docs/a.md" then some "connection reset" else none }

/-- C2: the claim says a dedup-check failure is logged and the file is
treated as not yet indexed (still processed), with every remaining file
still processed.  When the dedup query for the first file fails, the code
instead propagates the error through `?`: the whole call errors, the
second (healthy) file is never touched — no event is emitted for it — and
nothing is upserted. -/
theorem dedup_failure_aborts_counterexample :
    (process_and_upload_files dbEnvC2 configDefault [] [fileA2, fileB2] none).2 =
      .error "connection reset"
  ∧ (process_and_upload_files dbEnvC2 configDefault [] [fileA2, fileB2] none).1 =
      [.queryCall "file_data" "/docs/a.md"]
  ∧ runScan dbEnvC2 configDefault [] [fileA2, fileB2] none = [] :=
  ⟨rfl, rfl, rfl⟩

/-- C2 (amended): in `process_and_upload_files`, a summarization failure
or an embedding failure is logged with the file's identity and only skips
that file — the remaining files are processed exactly as if the failing
file were absent; a dedup-check failure, however, is not caught: it aborts
the whole batch with the error after logging only the query event. -/
theorem per_file_failures_logged_and_skipped (env : DbEnv) (config : Config)
    (store : List Point) (force : Bool) (file : FileMetadata)
    (rest : List FileMetadata) (idx : Nat) :
    (∀ e, is_file_already_indexed env store file.path = .ok false →
      get_or_generate_summary env.llm config file force = .error e →
      processLoop env config store force (file :: rest) idx =
        { events := .queryCall "file_data" file.path ::
            .summaryFailure file.name e ::
            (processLoop env config store force rest idx).events
          result := (processLoop env config store force rest idx).result })
  ∧ (∀ e summary, is_file_already_indexed env store file.path = .ok false →
      get_or_generate_summary env.llm config file force = .ok summary →
      generate_embeddings env summary = .error e →
      processLoop env config store force (file :: rest) idx =
        { events := .queryCall "file_data" file.path ::
            .embedFailure file.name e ::
            (processLoop env config store force rest idx).events
          result := (processLoop env config store force rest idx).result })
  ∧ (∀ e, is_file_already_indexed env store file.path = .error e →
      processLoop env config store force (file :: rest) idx =
        { events := [.queryCall "file_data" file.path], result := .error e }) := by
  refine ⟨?_, ?_, ?_⟩
  · intro e hq hs
    simp only [processLoop, hq, hs]
  · intro e summary hq hs he
    simp only [processLoop, hq, hs, he]
  · intro e hq
    simp only [processLoop, hq]

/-- A language-model environment whose document extraction always fails. -/
def llmEnvDocFail : LlmEnv :=
  { readDocumentResult := fun _ => .error "corrupt pdf"
    generateResult := fun _ _ _ => .ok "sum"
    imageGenerateResult := fun _ => .error "unused" }

/-- Extraction fails for documents; the embedding call fails for the
summary text `"sum"`. -/
def dbEnvC2b : DbEnv :=
  { dbEnvOk with
    llm := llmEnvDocFail
    embedFails := fun s => if s = "sum" then some "model oom" else none }

def fileAud : FileMetadata :=
  { name := "talk.mp3", path := "/docs/talk.mp3", size := 7
    filetype := .Audio, created_at := 0, modified_at := 0, summary := "" }

/-- Concrete instances of the amended C2: a summarization failure and an
embedding failure are each logged with the file name and skipped with the
batch going on, while a dedup-check failure aborts. -/
theorem per_file_failures_witness :
    processLoop dbEnvC2b configDefault [] false [fileA2] 0 =
      { events := [.queryCall "file_data" fileA2.path,
                   .summaryFailure fileA2.name "corrupt pdf"]
        result := .ok [] }
  ∧ processLoop dbEnvC2b configDefault [] false [fileAud] 0 =
      { events := [.queryCall "file_data" fileAud.path,
                   .embedFailure fileAud.name "model oom"]
        result := .ok [] }
  ∧ processLoop dbEnvC2 configDefault [] false [fileA2] 0 =
      { events := [.queryCall "file_data" fileA2.path]
        result := .error "connection reset" } := by
  refine ⟨?_, ?_, ?_⟩
  · rw [(per_file_failures_logged_and_skipped dbEnvC2b configDefault [] false
      fileA2 [] 0).1 "corrupt pdf" rfl rfl]
    rfl
  · rw [(per_file_failures_logged_and_skipped dbEnvC2b configDefault [] false
      fileAud [] 0).2.1 "model oom" "sum" rfl rfl rfl]
    rfl
  · rw [(per_file_failures_logged_and_skipped dbEnvC2 configDefault [] false
      fileA2 [] 0).2.2 "connection reset" rfl]

lemma processLoop_events_shape (env : DbEnv) (config : Config) (store : List Point)
    (force : Bool) :
    ∀ (files : List FileMetadata) (idx : Nat),
      ∀ op ∈ (processLoop env config store force files idx).events,
        (∀ coll p, op = DbOp.queryCall coll p → coll = "file_data")
      ∧ (∀ coll P, op ≠ DbOp.upsertCall coll P) := by
  intro files
  induction files with
  | nil =>
    intro idx op hop
    simp [processLoop] at hop
  | cons file rest ih =>
    intro idx op hop
    simp only [processLoop] at hop
    cases hq : is_file_already_indexed env store file.path with
    | error e =>
      rw [hq] at hop
      simp only [List.mem_singleton] at hop
      subst hop
      exact ⟨fun coll p h => by cases h; rfl, fun coll P h => DbOp.noConfusion h⟩
    | ok b =>
      cases b with
      | true =>
        rw [hq] at hop
        simp only [List.mem_cons] at hop
        rcases hop with rfl | rfl | hop
        · exact ⟨fun coll p h => by cases h; rfl, fun coll P h => DbOp.noConfusion h⟩
        · exact ⟨fun coll p h => DbOp.noConfusion h, fun coll P h => DbOp.noConfusion h⟩
        · exact ih idx op hop
      | false =>
        rw [hq] at hop
        simp only at hop
        cases hs : get_or_generate_summary env.llm config file force with
        | error e =>
          rw [hs] at hop
          simp only [List.mem_cons] at hop
          rcases hop with rfl | rfl | hop
          · exact ⟨fun coll p h => by cases h; rfl, fun coll P h => DbOp.noConfusion h⟩
          · exact ⟨fun coll p h => DbOp.noConfusion h, fun coll P h => DbOp.noConfusion h⟩
          · exact ih idx op hop
        | ok summary =>
          rw [hs] at hop
          simp only at hop
          cases he : generate_embeddings env summary with
          | error e =>
            rw [he] at hop
            simp only [List.mem_cons] at hop
            rcases hop with rfl | rfl | hop
            · exact ⟨fun coll p h => by cases h; rfl, fun coll P h => DbOp.noConfusion h⟩
            · exact ⟨fun coll p h => DbOp.noConfusion h, fun coll P h => DbOp.noConfusion h⟩
            · exact ih idx op hop
          | ok pair =>
            obtain ⟨dense_embeddings, sparse_embeddings⟩ := pair
            rw [he] at hop
            simp only at hop
            cases hd : dense_embeddings.head? with
            | some dense_embedding =>
              rw [hd] at hop
              simp only [List.mem_cons] at hop
              rcases hop with rfl | hop
              · exact ⟨fun coll p h => by cases h; rfl, fun coll P h => DbOp.noConfusion h⟩
              · exact ih (idx + 1) op hop
            | none =>
              rw [hd] at hop
              simp only [List.mem_cons] at hop
              rcases hop with rfl | rfl | hop
              · exact ⟨fun coll p h => by cases h; rfl, fun coll P h => DbOp.noConfusion h⟩
              · exact ⟨fun coll p h => DbOp.noConfusion h, fun coll P h => DbOp.noConfusion h⟩
              · exact ih idx op hop

lemma generate_embeddings_ok {env : DbEnv} {s : String} {d : List DenseVec}
    {sp : List SparseVec} (h : generate_embeddings env s = .ok (d, sp)) :
    d = (env.chunksOf s).map env.denseEmbed ∧ sp = [env.sparseEmbed s] := by
  unfold generate_embeddings at h
  cases hf : env.embedFails s with
  | some e => rw [hf] at h; exact Except.noConfusion h
  | none =>
    rw [hf] at h
    simp only at h
    obtain ⟨h1, h2⟩ := Prod.mk.injEq .. ▸ Except.ok.inj h
    exact ⟨h1.symm, h2.symm⟩

lemma processLoop_points_vectors (env : DbEnv) (config : Config) (store : List Point)
    (force : Bool) :
    ∀ (files : List FileMetadata) (idx : Nat) (pts : List Point),
      (processLoop env config store force files idx).result = .ok pts →
      ∀ pt ∈ pts, ∃ c, (env.chunksOf pt.summary).head? = some c
        ∧ pt.vectors = [("novum", env.denseEmbed c)] := by
  intro files
  induction files with
  | nil =>
    intro idx pts h
    simp only [processLoop] at h
    obtain rfl : ([] : List Point) = pts := Except.ok.inj h
    simp
  | cons file rest ih =>
    intro idx pts h
    simp only [processLoop] at h
    cases hq : is_file_already_indexed env store file.path with
    | error e => rw [hq] at h; exact absurd h (by simp)
    | ok b =>
      cases b with
      | true =>
        rw [hq] at h
        simp only at h
        exact ih idx pts h
      | false =>
        rw [hq] at h
        simp only at h
        cases hs : get_or_generate_summary env.llm config file force with
        | error e =>
          rw [hs] at h
          simp only at h
          exact ih idx pts h
        | ok summary =>
          rw [hs] at h
          simp only at h
          cases he : generate_embeddings env summary with
          | error e =>
            rw [he] at h
            simp only at h
            exact ih idx pts h
          | ok pair =>
            obtain ⟨dense_embeddings, sparse_embeddings⟩ := pair
            rw [he] at h
            simp only at h
            cases hd : dense_embeddings.head? with
            | none =>
              rw [hd] at h
              simp only at h
              exact ih idx pts h
            | some dense_embedding =>
              rw [hd] at h
              simp only at h
              cases hrec : (processLoop env config store force rest (idx + 1)).result with
              | error e => rw [hrec] at h; exact absurd h (by simp)
              | ok pts2 =>
                rw [hrec] at h
                simp only at h
                obtain rfl := Except.ok.inj h
                intro pt hpt
                rcases List.mem_cons.1 hpt with rfl | hpt
                · obtain ⟨hdense, _⟩ := generate_embeddings_ok he
                  subst hdense
                  rw [List.head?_map] at hd
                  cases hc : (env.chunksOf summary).head? with
                  | none => rw [hc] at hd; exact Option.noConfusion hd
                  | some c =>
                    rw [hc] at hd
                    obtain rfl := Option.some.inj hd
                    refine ⟨c, ?_, rfl⟩
                    simp
                · exact ih (idx + 1) pts2 hrec pt hpt

/-- C9: every point assembled for upsert carries exactly one named vector:
the `"novum"` dense space holding the dense embedding of the first chunk
of the point's summary.  The sparse embedding — although
`generate_embeddings` does compute it over the full summary text — never
reaches the point's vector map. -/
theorem point_single_dense_vector (env : DbEnv) (config : Config) (store : List Point)
    (files : List FileMetadata) (force : Option Bool) :
    (∀ coll P,
      DbOp.upsertCall coll P ∈ (process_and_upload_files env config store files force).1 →
      ∀ pt ∈ P, ∃ c, (env.chunksOf pt.summary).head? = some c
        ∧ pt.vectors = [("novum", env.denseEmbed c)])
  ∧ (∀ s d sp, generate_embeddings env s = .ok (d, sp) → sp = [env.sparseEmbed s]) := by
  constructor
  · intro coll P hmem pt hpt
    simp only [process_and_upload_files] at hmem
    split at hmem
    · rename_i e hout
      exact absurd ((processLoop_events_shape env config store (force.getD false) files 0
        _ hmem).2 coll P) (by simp)
    · rename_i pts hout
      by_cases hnil : pts = []
      · rw [if_pos hnil] at hmem
        simp only [List.mem_append, List.mem_singleton] at hmem
        rcases hmem with hmem | hmem
        · exact absurd ((processLoop_events_shape env config store (force.getD false) files 0
            _ hmem).2 coll P) (by simp)
        · exact absurd hmem (by simp)
      · rw [if_neg hnil] at hmem
        have hP : DbOp.upsertCall coll P ∈
            (processLoop env config store (force.getD false) files 0).events ++
              [DbOp.upsertCall "file_data" pts] := by
          split at hmem
          · exact hmem
          · exact hmem
        simp only [List.mem_append, List.mem_singleton] at hP
        rcases hP with hP | hP
        · exact absurd ((processLoop_events_shape env config store (force.getD false) files 0
            _ hP).2 coll P) (by simp)
        · obtain ⟨h1, h2⟩ := DbOp.upsertCall.inj hP
          rw [h2] at hpt
          exact processLoop_points_vectors env config store (force.getD false) files 0 pts
            hout pt hpt
  · intro s d sp h
    exact (generate_embeddings_ok h).2

/-- The one point produced by the all-success run over `fileA`. -/
def pointA : Point :=
  { id := "11111111-2222"
    vectors := [("novum", [1, 2])]
    file_name := "report.md"
    file_path := "/docs/report.md"
    file_size := 10
    summary := "a fine summary" }

/-- Concrete instance of C9 on the all-success one-file run. -/
theorem point_single_dense_vector_witness :
    DbOp.upsertCall "file_data" [pointA] ∈
      (process_and_upload_files dbEnvOk configDefault [] [fileA] none).1
  ∧ ∃ c, (dbEnvOk.chunksOf pointA.summary).head? = some c
      ∧ pointA.vectors = [("novum", dbEnvOk.denseEmbed c)] :=
  ⟨by decide,
   (point_single_dense_vector dbEnvOk configDefault [] [fileA] none).1
     "file_data" [pointA] (by decide) pointA (by decide)⟩

lemma config_scan_congr (env : DbEnv) (c1 c2 : Config) (hs : c1.scan = c2.scan)
    (store : List Point) (force : Bool) :
    ∀ (files : List FileMetadata) (idx : Nat),
      processLoop env c1 store force files idx = processLoop env c2 store force files idx := by
  intro files
  induction files with
  | nil => intro idx; rfl
  | cons file rest ih =>
    intro idx
    have hsum : get_or_generate_summary env.llm c1 file force =
        get_or_generate_summary env.llm c2 file force := by
      unfold get_or_generate_summary
      rw [hs]
    simp only [processLoop, hsum, ih]

/-- C10: every store operation of the indexing path — the per-file dedup
query and the final batch upsert — targets the literal collection name
`"file_data"`, and `process_and_upload_files` never reads the
`collection_name` field of the configuration: replacing that field by any
value leaves its entire behavior unchanged. -/
theorem store_calls_use_file_data (env : DbEnv) (config : Config) (store : List Point)
    (files : List FileMetadata) (force : Option Bool) :
    (∀ coll p,
      DbOp.queryCall coll p ∈ (process_and_upload_files env config store files force).1 →
      coll = "file_data")
  ∧ (∀ coll P,
      DbOp.upsertCall coll P ∈ (process_and_upload_files env config store files force).1 →
      coll = "file_data")
  ∧ (∀ x, process_and_upload_files env { config with collection_name := x } store files force =
      process_and_upload_files env config store files force) := by
  have hloop : ∀ op, op ∈ (processLoop env config store (force.getD false) files 0).events →
      (∀ coll p, op = DbOp.queryCall coll p → coll = "file_data")
    ∧ (∀ coll P, op ≠ DbOp.upsertCall coll P) :=
    processLoop_events_shape env config store (force.getD false) files 0
  have hsplit : ∀ op, op ∈ (process_and_upload_files env config store files force).1 →
      op ∈ (processLoop env config store (force.getD false) files 0).events
    ∨ ∃ pts, op = DbOp.upsertCall "file_data" pts ∨ op = DbOp.noNewFiles := by
    intro op hop
    simp only [process_and_upload_files] at hop
    split at hop
    · exact Or.inl hop
    · rename_i pts hout
      by_cases hnil : pts = []
      · rw [if_pos hnil] at hop
        simp only [List.mem_append, List.mem_singleton] at hop
        rcases hop with hop | rfl
        · exact Or.inl hop
        · exact Or.inr ⟨[], Or.inr rfl⟩
      · rw [if_neg hnil] at hop
        have hop2 : op ∈ (processLoop env config store (force.getD false) files 0).events ++
            [DbOp.upsertCall "file_data" pts] := by
          split at hop
          · exact hop
          · exact hop
        simp only [List.mem_append, List.mem_singleton] at hop2
        rcases hop2 with hop2 | rfl
        · exact Or.inl hop2
        · exact Or.inr ⟨pts, Or.inl rfl⟩
  refine ⟨?_, ?_, ?_⟩
  · intro coll p hmem
    rcases hsplit _ hmem with h | ⟨pts, h | h⟩
    · exact (hloop _ h).1 coll p rfl
    · exact absurd h (by simp)
    · exact absurd h (by simp)
  · intro coll P hmem
    rcases hsplit _ hmem with h | ⟨pts, h | h⟩
    · exact absurd rfl ((hloop _ h).2 coll P)
    · exact (DbOp.upsertCall.inj h).1
    · exact absurd h (by simp)
  · intro x
    simp only [process_and_upload_files]
    rw [config_scan_congr env { config with collection_name := x } config rfl store
      (force.getD false) files 0]

/-- Concrete instance of C10: on the all-success one-file run, the query
event targets `"file_data"`, and swapping the configured collection name
changes nothing. -/
theorem store_calls_use_file_data_witness :
    ("file_data" : String) = "file_data"
  ∧ process_and_upload_files dbEnvOk
      { configDefault with collection_name := "somewhere_else" } [] [fileA] none =
    process_and_upload_files dbEnvOk configDefault [] [fileA] none :=
  ⟨(store_calls_use_file_data dbEnvOk configDefault [] [fileA] none).1
      "file_data" "/docs/report.md" (by decide),
   (store_calls_use_file_data dbEnvOk configDefault [] [fileA] none).2.2 "somewhere_else"⟩

end Arborist
